import Mathlib

/-!
Shallow embedding of the rtl-visual output-stationary systolic-array
simulator (src/src/App.js and src/value.js), together with theorems
checking the repository's specification against the code.

Conventions used throughout:
* JS arrays of hardware registers are modelled as total functions
  `Nat → Value` (resp. `Nat → Nat → Value`); positions the JS code never
  touches keep their previous contents, matching the in-place JS updates.
* All fallible operations (JS `throw`) return `Except SimError _`.
* The JS systolic-array / delay-triangle update loops run over indices in
  decreasing order so that every register read inside a loop body sees the
  pre-update value of its neighbour; they are therefore modelled as
  simultaneous updates reading the old state.
-/

/-- Error kinds of the simulator, one per `throw` site family (§7 of the
spec).  The JS code throws generic `Error`s; the constructor used here
records which check failed. -/
inductive SimError where
  | dimensionMismatch
  | invalidArrayLength
  | inconsistentAccumulation
  | invalidOperandPair
  | lengthMismatch
  | outOfBounds
  | invalidFirstValue
deriving DecidableEq, Repr

/-- The value model of value.js: a constant integer, a symbolic matrix
element `name[i][j]`, or a symbolic partial sum of `count` terms of
`left[i][k] * right[k][j]`. -/
inductive Value where
  | constInt : Int → Value
  | matrixElem : String → Nat → Nat → Value
  | partialSum : String → String → Nat → Nat → Nat → Value
deriving DecidableEq, Repr

/-- Predicate `isConstantZero` from value.js: true only for a `ConstantInteger`
carrying 0. -/
def isConstantZero : Value → Bool
  | .constInt n => n = 0
  | _ => false

/-- Whether a value is a `SymbolicMatrixElement` (JS `instanceof` test). -/
def isMatrixElem : Value → Bool
  | .matrixElem _ _ _ => true
  | _ => false

/-- The three registers of an `OutputStationaryPE`. -/
structure PERegs where
  X : Value
  W : Value
  Acc : Value
deriving DecidableEq, Repr

/-- Initial PE register file: all zero constants. -/
def initPE : PERegs := ⟨.constInt 0, .constInt 0, .constInt 0⟩

/-- Method `OutputStationaryPE.update` (App.js lines 112-148): folds the current
X/W registers into the accumulator (validating reduction consistency),
then replaces the registers wholesale with the incoming values and the
next accumulator.  The `CAREFUL` flag in the source is the constant
`true`, so the validation is inlined. -/
def peUpdate (r : PERegs) (X_in W_in : Value) : Except SimError PERegs :=
  match r.X, r.W with
  | .matrixElem xn xi xj, .matrixElem wn wi wj =>
    -- both registers hold matrix elements: accumulate, k := X.j
    if xj ≠ wi then .error .inconsistentAccumulation
    else if isConstantZero r.Acc then
      if xj ≠ 0 then .error .inconsistentAccumulation
      else .ok ⟨X_in, W_in, .partialSum xn wn xi wj (xj + 1)⟩
    else
      match r.Acc with
      | .partialSum pn qn pi pj pN =>
        if pN = xj then
          if pn ≠ xn ∨ qn ≠ wn ∨ pi ≠ xi ∨ pj ≠ wj then
            .error .inconsistentAccumulation
          else .ok ⟨X_in, W_in, .partialSum xn wn xi wj (xj + 1)⟩
        else .error .inconsistentAccumulation
      | _ => .error .inconsistentAccumulation
  | _, _ =>
    if isConstantZero r.X || isConstantZero r.W then .ok ⟨X_in, W_in, r.Acc⟩
    else .error .invalidOperandPair

/-- The reduction-consistency failure condition of claim C6: both
registers are matrix elements and the index / accumulator checks fail. -/
def inconsistentCond (r : PERegs) : Prop :=
  match r.X, r.W with
  | .matrixElem xn xi xj, .matrixElem wn wi wj =>
    -- the X element's column index differs from the W element's row index
    xj ≠ wi ∨
    -- the Acc is the zero constant but k (= X's column index) is not 0
    (isConstantZero r.Acc = true ∧ xj ≠ 0) ∨
    -- the Acc is a partial sum with count = k whose identity differs
    (match r.Acc with
     | .partialSum pn qn pi pj pN =>
       pN = xj ∧ ¬(pn = xn ∧ qn = wn ∧ pi = xi ∧ pj = wj)
     | _ => False) ∨
    -- the Acc is any other value (including a partial sum whose count ≠ k)
    (isConstantZero r.Acc = false ∧
      (match r.Acc with
       | .partialSum _ _ _ _ pN => pN ≠ xj
       | _ => True))
  | _, _ => False

/-- The invalid-operand-pair condition of claim C6: not both matrix
elements and neither the zero constant. -/
def invalidPairCond (r : PERegs) : Prop :=
  ¬(isMatrixElem r.X = true ∧ isMatrixElem r.W = true) ∧
  isConstantZero r.X = false ∧ isConstantZero r.W = false

deriving instance DecidableEq for Except

/-- C2: a non-failing PE update replaces the registers wholesale: X
becomes X_in, W becomes W_in; the next accumulator is a fresh partial
sum with count `k + 1` (k = current X's column index) and names/indices
taken from the current X/W when both current registers are matrix
elements, and is the unchanged current accumulator when either current
register is the zero constant. -/
theorem peUpdate_ok_characterization (r : PERegs) (X_in W_in : Value)
    (r' : PERegs) (h : peUpdate r X_in W_in = .ok r') :
    r'.X = X_in ∧ r'.W = W_in ∧
    (∀ xn xi xj wn wi wj, r.X = .matrixElem xn xi xj →
      r.W = .matrixElem wn wi wj →
      r'.Acc = .partialSum xn wn xi wj (xj + 1)) ∧
    ((isConstantZero r.X = true ∨ isConstantZero r.W = true) →
      r'.Acc = r.Acc) := by
  obtain ⟨X, W, Acc⟩ := r
  obtain ⟨X', W', A'⟩ := r'
  cases X <;> cases W <;> cases Acc <;>
    simp only [peUpdate, isConstantZero, decide_eq_true_eq] at h <;>
    split_ifs at h <;>
    simp_all <;>
    (obtain ⟨rfl, rfl, rfl⟩ := h
     constructor <;> intros <;> subst_vars <;> simp_all [isConstantZero])

/-- Witness for `peUpdate_ok_characterization` at a concrete input. -/
theorem peUpdate_ok_characterization_witness :
    peUpdate ⟨.matrixElem "X" 0 0, .matrixElem "W" 0 0, .constInt 0⟩
        (.constInt 0) (.constInt 0) =
      .ok ⟨.constInt 0, .constInt 0, .partialSum "X" "W" 0 0 1⟩ ∧
    (⟨.constInt 0, .constInt 0, .partialSum "X" "W" 0 0 1⟩ : PERegs).X =
      .constInt 0 := by
  refine ⟨by decide, ?_⟩
  exact (peUpdate_ok_characterization
    ⟨.matrixElem "X" 0 0, .matrixElem "W" 0 0, .constInt 0⟩
    (.constInt 0) (.constInt 0) _ (by decide)).1

/-- C6: the PE update fails with `InconsistentAccumulation` exactly when
both current registers are matrix elements and the reduction
consistency check fails (mismatched reduction index, zero accumulator
with nonzero index, partial sum with matching count but differing
identity, or any other accumulator value); and it fails with
`InvalidOperandPair` exactly when the registers are not both matrix
elements and neither is the zero constant. -/
theorem peUpdate_error_characterization (r : PERegs) (X_in W_in : Value) :
    (peUpdate r X_in W_in = .error .inconsistentAccumulation ↔
      inconsistentCond r) ∧
    (peUpdate r X_in W_in = .error .invalidOperandPair ↔
      invalidPairCond r) := by
  obtain ⟨X, W, Acc⟩ := r
  cases X <;> cases W <;> cases Acc <;>
    simp only [peUpdate, inconsistentCond, invalidPairCond, isConstantZero,
      isMatrixElem] <;>
    split_ifs <;>
    simp_all <;>
    tauto

/-- Extract the error out of an `Except`, if any. -/
def exceptError? {ε α : Type} : Except ε α → Option ε
  | .error e => some e
  | .ok _ => none

/-- Extract the success value of an `Except`, with a fallback default. -/
def exceptGetD {ε α : Type} : Except ε α → α → α
  | .ok a, _ => a
  | .error _, d => d

/-- The `DelayRegisterTriangle` of App.js: `N` shift chains, chain `i`
holding `i + 1` registers (slots `0 .. i`). -/
structure DelayRegisterTriangle where
  N : Nat
  registers : Nat → Nat → Value

/-- A freshly constructed triangle: all registers hold the zero constant. -/
def initTriangle (N : Nat) : DelayRegisterTriangle :=
  ⟨N, fun _ _ => .constInt 0⟩

/-- Method `DelayRegisterTriangle.produce_output` (App.js lines 253-263): slot 0
passes through; slot `i` (1 ≤ i ≤ N) reads the deepest register of
chain `i - 1`. -/
def triangleProduceOutput (T : DelayRegisterTriangle) (input : List Value) :
    Except SimError (List Value) :=
  if input.length ≠ T.N + 1 then .error .lengthMismatch
  else .ok ((List.range (T.N + 1)).map fun i =>
    if i = 0 then input.getD 0 (.constInt 0) else T.registers (i - 1) (i - 1))

/-- Method `DelayRegisterTriangle.update` (App.js lines 269-279): each chain
shifts one position towards its deep end (the JS loop runs `j` from `i`
down to 1, so each read sees the pre-update value) and `input[i+1]`
enters at the shallow end. -/
def triangleUpdate (T : DelayRegisterTriangle) (input : List Value) :
    Except SimError DelayRegisterTriangle :=
  if input.length ≠ T.N + 1 then .error .lengthMismatch
  else .ok ⟨T.N, fun i j =>
    if i < T.N ∧ j ≤ i then
      (if j = 0 then input.getD (i + 1) (.constInt 0) else T.registers i (j - 1))
    else T.registers i j⟩

/-- A sequence of `update` calls applied in chronological order. -/
def runTriangle (T : DelayRegisterTriangle) (ins : List (List Value)) :
    Except SimError DelayRegisterTriangle :=
  ins.foldlM triangleUpdate T

lemma getD_range_map {α : Type} (n : Nat) (f : Nat → α) (i : Nat) (d : α) :
    ((List.range n).map f).getD i d = if i < n then f i else d := by
  induction n generalizing i with
  | zero => simp [List.getD]
  | succ m ih =>
    rw [List.range_succ, List.map_append]
    rcases Nat.lt_trichotomy i m with h | h | h
    · rw [List.getD_append _ _ _ _ (by simpa using h)]
      simp [ih, h, Nat.lt_succ_of_lt h]
    · subst h
      rw [List.getD_eq_getElem?_getD]
      simp [List.getElem?_append_right, Nat.lt_irrefl]
    · rw [List.getD_eq_getElem?_getD, List.getElem?_eq_none (by simpa using h)]
      simp [Nat.not_lt.2 h, show ¬i < m + 1 by omega]

lemma except_ok_bind {ε α β : Type} (a : α) (f : α → Except ε β) :
    ((Except.ok a : Except ε α) >>= f) = f a := rfl

lemma triangleUpdate_ok (T : DelayRegisterTriangle) (input : List Value)
    (h : input.length = T.N + 1) :
    triangleUpdate T input = .ok ⟨T.N, fun i j =>
      if i < T.N ∧ j ≤ i then
        (if j = 0 then input.getD (i + 1) (.constInt 0)
         else T.registers i (j - 1))
      else T.registers i j⟩ := by
  simp [triangleUpdate, h]

/-- Closed form for the registers after a chronological sequence of
triangle updates: slot `j` of chain `i` holds the element `i + 1` of the
input supplied `j + 1` updates ago (or the initial contents, shifted, if
fewer updates have happened). -/
lemma runTriangle_registers (ins : List (List Value)) :
    ∀ (T : DelayRegisterTriangle), (∀ v ∈ ins, v.length = T.N + 1) →
    runTriangle T ins = .ok ⟨T.N, fun i j =>
      if i < T.N ∧ j ≤ i then
        (if j < ins.length then
          (ins.getD (ins.length - 1 - j) []).getD (i + 1) (.constInt 0)
         else T.registers i (j - ins.length))
      else T.registers i j⟩ := by
  induction ins with
  | nil =>
    intro T _
    obtain ⟨N, regs⟩ := T
    simp only [runTriangle, List.foldlM_nil, List.length_nil]
    congr 1
    congr 1
    funext i j
    simp
  | cons a rest ih =>
    intro T hlen
    have ha : a.length = T.N + 1 := hlen a (by simp)
    simp only [runTriangle, List.foldlM_cons]
    rw [triangleUpdate_ok T a ha, except_ok_bind]
    rw [show (List.foldlM triangleUpdate _ rest : Except SimError _) =
      runTriangle _ rest from rfl]
    rw [ih _ (fun v hv => by simpa using hlen v (List.mem_cons_of_mem a hv))]
    congr 1
    congr 1
    funext i j
    dsimp only [List.length_cons]
    by_cases hir : i < T.N ∧ j ≤ i
    · rw [if_pos hir, if_pos hir]
      rcases Nat.lt_trichotomy j rest.length with hj | hj | hj
      · rw [if_pos hj, if_pos (show j < rest.length + 1 by omega)]
        rw [show rest.length + 1 - 1 - j = (rest.length - 1 - j) + 1 by omega,
          List.getD_cons_succ]
      · subst hj
        rw [if_neg (Nat.lt_irrefl _), if_pos (Nat.lt_succ_self _)]
        rw [show rest.length + 1 - 1 - rest.length = 0 by omega,
          List.getD_cons_zero, Nat.sub_self]
        rw [if_pos (show i < T.N ∧ 0 ≤ i from ⟨hir.1, Nat.zero_le _⟩),
          if_pos rfl]
      · rw [if_neg (show ¬j < rest.length by omega),
          if_neg (show ¬j < rest.length + 1 by omega)]
        rw [if_pos (show i < T.N ∧ j - rest.length ≤ i from ⟨hir.1, by omega⟩)]
        rw [if_neg (show ¬j - rest.length = 0 by omega)]
        rw [show j - rest.length - 1 = j - (rest.length + 1) by omega]
    · rw [if_neg hir, if_neg hir, if_neg hir]

lemma except_map_ok {ε α β : Type} (f : α → β) (a : α) :
    Except.map f (Except.ok a : Except ε α) = .ok (f a) := rfl

lemma triangleProduceOutput_ok (T : DelayRegisterTriangle)
    (input : List Value) (h : input.length = T.N + 1) :
    triangleProduceOutput T input = .ok ((List.range (T.N + 1)).map fun i =>
      if i = 0 then input.getD 0 (.constInt 0)
      else T.registers (i - 1) (i - 1)) := by
  simp [triangleProduceOutput, h]

/-- C4: after any chronological sequence of `update` calls with inputs of
length N+1, `produce_output` slot 0 equals slot 0 of the current input
(identity path), and slot `i` (1 ≤ i ≤ N) equals slot `i` of the input
supplied `i` updates ago, or the zero constant when fewer than `i`
updates have occurred. -/
theorem delayTriangle_skew (N : Nat) (ins : List (List Value))
    (cur : List Value) (hins : ∀ v ∈ ins, v.length = N + 1)
    (hcur : cur.length = N + 1) :
    ((runTriangle (initTriangle N) ins >>=
        fun T => triangleProduceOutput T cur).map
          (fun out => out.getD 0 (.constInt 0)) =
      .ok (cur.getD 0 (.constInt 0))) ∧
    (∀ i, 1 ≤ i → i ≤ N →
      (runTriangle (initTriangle N) ins >>=
          fun T => triangleProduceOutput T cur).map
            (fun out => out.getD i (.constInt 0)) =
        .ok (if i ≤ ins.length then
          (ins.getD (ins.length - i) []).getD i (.constInt 0)
          else .constInt 0)) := by
  rw [runTriangle_registers ins (initTriangle N) (fun v hv => hins v hv),
    except_ok_bind]
  rw [triangleProduceOutput_ok _ cur hcur]
  constructor
  · rw [except_map_ok, getD_range_map]
    rw [if_pos (Nat.succ_pos _), if_pos rfl]
  · intro i h1 hN
    rw [except_map_ok, getD_range_map]
    dsimp only [initTriangle]
    rw [if_pos (show i < N + 1 by omega), if_neg (show ¬i = 0 by omega)]
    rw [if_pos (show i - 1 < N ∧ i - 1 ≤ i - 1 from ⟨by omega, le_refl _⟩)]
    by_cases hc : i - 1 < ins.length
    · rw [if_pos hc, if_pos (show i ≤ ins.length by omega)]
      rw [show ins.length - 1 - (i - 1) = ins.length - i by omega,
        show i - 1 + 1 = i by omega]
    · rw [if_neg hc, if_neg (show ¬i ≤ ins.length by omega)]

/-- Witness for `delayTriangle_skew` at a concrete input (N = 1, two
updates already applied). -/
theorem delayTriangle_skew_witness :
    (∀ v ∈ [[Value.constInt 0, Value.matrixElem "X" 1 0],
      [Value.constInt 0, Value.matrixElem "X" 1 1]], v.length = 1 + 1) ∧
    ([Value.matrixElem "X" 0 2, Value.constInt 7].length = 1 + 1) ∧
    (1 ≤ 1 ∧ 1 ≤ 1) ∧
    ((runTriangle (initTriangle 1)
        [[Value.constInt 0, Value.matrixElem "X" 1 0],
         [Value.constInt 0, Value.matrixElem "X" 1 1]] >>=
        fun T => triangleProduceOutput T
          [Value.matrixElem "X" 0 2, Value.constInt 7]).map
          (fun out => out.getD 1 (.constInt 0)) =
      .ok (Value.matrixElem "X" 1 1)) := by
  refine ⟨by decide, by decide, ⟨le_refl 1, le_refl 1⟩, ?_⟩
  have h := (delayTriangle_skew 1
    [[Value.constInt 0, Value.matrixElem "X" 1 0],
     [Value.constInt 0, Value.matrixElem "X" 1 1]]
    [Value.matrixElem "X" 0 2, Value.constInt 7]
    (by decide) (by decide)).2 1 (le_refl 1) (le_refl 1)
  rw [h]
  decide

/-- The `OutputStationarySystolicArray`: an N×N grid of PE register
files, addressed as `array row col`. -/
structure SystolicArray where
  N : Nat
  array : Nat → Nat → PERegs

/-- A freshly constructed array: every PE holds zero registers. -/
def initArray (N : Nat) : SystolicArray := ⟨N, fun _ _ => initPE⟩

/-- Method `OutputStationarySystolicArray.produce_output` (App.js lines
181-193): when evicting, the bottom row's Acc registers; otherwise a
vector of zero constants (don't-care). -/
def arrayProduceOutput (A : SystolicArray) (movesOutputDown : Bool) :
    List Value :=
  if movesOutputDown then
    (List.range A.N).map fun i => (A.array (A.N - 1) i).Acc
  else
    (List.range A.N).map fun _ => .constInt 0

/-- The X wire feeding PE (i, j): the external delayed input for column
0, otherwise the left neighbour's (pre-update) X register.  JS indexes
`inputs_X[i]` in range only; the default is never exercised. -/
def peInputX (A : SystolicArray) (inputs_X : List Value) (i j : Nat) :
    Value :=
  if j = 0 then inputs_X.getD i (.constInt 0) else (A.array i (j - 1)).X

/-- The W wire feeding PE (i, j): the external delayed input for row 0,
otherwise the upper neighbour's (pre-update) W register. -/
def peInputW (A : SystolicArray) (inputs_W : List Value) (i j : Nat) :
    Value :=
  if i = 0 then inputs_W.getD j (.constInt 0) else (A.array (i - 1) j).W

/-- Cell indices in the order the JS update loop visits them
(decreasing row, then decreasing column). -/
def idxListRev (N : Nat) : List (Nat × Nat) :=
  ((List.range N).reverse).flatMap fun i =>
    ((List.range N).reverse).map fun j => (i, j)

/-- Method `OutputStationarySystolicArray.update` (App.js lines 201-219).
When evicting, every Acc moves one row down (the JS loop runs `i` from
N-1 down to 1, reading the not-yet-updated row above) and row 0's Acc
resets to zero; X/W registers and the input vectors are ignored.
Otherwise each PE updates from its left/upper neighbours' pre-update
registers (the JS loop order — decreasing i, then j — guarantees every
read sees the old value); the first PE failure, in loop order, aborts
the update. -/
def arrayUpdate (A : SystolicArray) (inputs_X inputs_W : List Value)
    (movesOutputDown : Bool) : Except SimError SystolicArray :=
  if movesOutputDown then
    .ok ⟨A.N, fun i j =>
      if i < A.N ∧ j < A.N then
        ⟨(A.array i j).X, (A.array i j).W,
         if i = 0 then .constInt 0 else (A.array (i - 1) j).Acc⟩
      else A.array i j⟩
  else
    match (idxListRev A.N).findSome? (fun p =>
      exceptError? (peUpdate (A.array p.1 p.2)
        (peInputX A inputs_X p.1 p.2) (peInputW A inputs_W p.1 p.2))) with
    | some e => .error e
    | none => .ok ⟨A.N, fun i j =>
        if i < A.N ∧ j < A.N then
          exceptGetD (peUpdate (A.array i j)
            (peInputX A inputs_X i j) (peInputW A inputs_W i j))
            (A.array i j)
        else A.array i j⟩

/-- Class `MatrixRAM`: a `row_count × col_count` store of values in row-major
order.  Cells at indices ≥ `row_count * col_count` are never read or
written (reads/writes are bounds-checked), so the total function keeps
them at whatever the generator formula yields. -/
structure MatrixRAM where
  row_count : Nat
  col_count : Nat
  cells : Nat → Value

/-- The `MatrixRAM` constructor (App.js lines 293-311): a constant first
value fills every cell with itself; a symbolic matrix element generates
`name[i][j]` (or the transpose); anything else is rejected. -/
def matrixRAMNew (row_count col_count : Nat) (first_value : Value)
    (transposed : Bool) : Except SimError MatrixRAM :=
  match first_value with
  | .constInt _ => .ok ⟨row_count, col_count, fun _ => first_value⟩
  | .matrixElem name _ _ =>
    .ok ⟨row_count, col_count, fun k =>
      if transposed then .matrixElem name (k % col_count) (k / col_count)
      else .matrixElem name (k / col_count) (k % col_count)⟩
  | _ => .error .invalidFirstValue

/-- Method `MatrixRAM._checkPosition`: row index within `[0, row_count)` and
column window within `[0, col_count]`.  Addresses are integers because
the JS arithmetic producing them can go negative. -/
def checkPosition (m : MatrixRAM) (row_index col_offset : Int)
    (element_count : Nat) : Except SimError Unit :=
  if row_index < 0 ∨ (m.row_count : Int) ≤ row_index then
    .error .outOfBounds
  else if col_offset < 0 ∨ (m.col_count : Int) < col_offset + element_count
    then .error .outOfBounds
  else .ok ()

/-- Method `MatrixRAM.readRow`: the slice
`cells[row*cols + off .. row*cols + off + count)`. -/
def readRow (m : MatrixRAM) (row_index col_offset : Int)
    (element_count : Nat) : Except SimError (List Value) :=
  (checkPosition m row_index col_offset element_count).map fun _ =>
    (List.range element_count).map fun k =>
      m.cells (row_index.toNat * m.col_count + col_offset.toNat + k)

/-- Method `MatrixRAM.writeRow`: overwrite the slice with `row` (the JS loop
writes `row[i]`; callers always pass a list of exactly
`element_count` values, so the default is never exercised). -/
def writeRow (m : MatrixRAM) (row_index col_offset : Int)
    (element_count : Nat) (row : List Value) :
    Except SimError MatrixRAM :=
  (checkPosition m row_index col_offset element_count).map fun _ =>
    { m with cells := fun k =>
        let start := row_index.toNat * m.col_count + col_offset.toNat
        if start ≤ k ∧ k < start + element_count then
          row.getD (k - start) (.constInt 0)
        else m.cells k }

/-- The full per-cycle control-signal record. -/
structure AllControls where
  X_memReadEnable : Bool
  X_memReadAddress : Int
  W_memReadEnable : Bool
  W_memReadAddress : Int
  Y_memWriteEnable : Bool
  Y_memWriteAddress : Int
  movesOutputDown : Bool
deriving DecidableEq, Repr

/-- The `OutputStationaryController` state. -/
structure OutputStationaryController where
  arrayWidth : Nat
  streamLength : Nat
  cycleCount : Nat
deriving DecidableEq, Repr

/-- Method `OutputStationaryController.produceControlSignals` (App.js lines
385-396), with `completeCycle = (2 * arrayWidth - 1) + streamLength`
computed in ordinary (signed) integer arithmetic as in JS. -/
def produceControlSignals (ctl : OutputStationaryController) :
    AllControls :=
  let completeCycle : Int :=
    (2 * (ctl.arrayWidth : Int) - 1) + (ctl.streamLength : Int)
  { X_memReadEnable := decide (ctl.cycleCount < ctl.streamLength)
    X_memReadAddress := (ctl.cycleCount : Int)
    W_memReadEnable := decide (ctl.cycleCount < ctl.streamLength)
    W_memReadAddress := (ctl.cycleCount : Int)
    Y_memWriteEnable := decide (completeCycle ≤ (ctl.cycleCount : Int) ∧
      (ctl.cycleCount : Int) < completeCycle + (ctl.arrayWidth : Int))
    Y_memWriteAddress := ((ctl.arrayWidth : Int) - 1) -
      ((ctl.cycleCount : Int) - completeCycle)
    movesOutputDown := decide (completeCycle ≤ (ctl.cycleCount : Int)) }

/-- Method `OutputStationaryController.update`: advance the cycle counter. -/
def controllerUpdate (ctl : OutputStationaryController) :
    OutputStationaryController :=
  { ctl with cycleCount := ctl.cycleCount + 1 }

/-- The `OutputStationaryTopLevel` submodule state. -/
structure OutputStationaryTopLevel where
  arrayWidth : Nat
  streamLength : Nat
  X_mem : MatrixRAM
  W_mem : MatrixRAM
  Y_mem : MatrixRAM
  X_delay : DelayRegisterTriangle
  W_delay : DelayRegisterTriangle
  systolicArray : SystolicArray
  controller : OutputStationaryController

/-- The `OutputStationaryTopLevel` constructor (App.js lines 419-447):
three dimension checks, then submodule construction.  With
`arrayWidth = 0`, the JS `new DelayRegisterTriangle(arrayWidth - 1)`
executes `new Array(-1)` and throws a `RangeError`; that case is
modelled by the distinct `invalidArrayLength` error (checked before the
memories are built, which is observationally equivalent because memory
construction cannot fail here and the partially built object is
discarded on throw). -/
def topConstruct (X_row_count X_col_count W_row_count W_col_count
    systolic_row_count systolic_col_count : Nat) :
    Except SimError OutputStationaryTopLevel :=
  if X_col_count ≠ W_row_count then .error .dimensionMismatch
  else if X_row_count ≠ systolic_row_count ∨
      W_col_count ≠ systolic_col_count then .error .dimensionMismatch
  else if systolic_row_count ≠ systolic_col_count then
    .error .dimensionMismatch
  else if systolic_row_count = 0 then .error .invalidArrayLength
  else
    (matrixRAMNew X_col_count X_row_count (.matrixElem "X" 0 0)
      true).bind fun Xm =>
    (matrixRAMNew W_row_count W_col_count (.matrixElem "W" 0 0)
      false).bind fun Wm =>
    (matrixRAMNew systolic_row_count systolic_row_count (.constInt 0)
      false).map fun Ym =>
    { arrayWidth := systolic_row_count
      streamLength := X_col_count
      X_mem := Xm
      W_mem := Wm
      Y_mem := Ym
      X_delay := initTriangle (systolic_row_count - 1)
      W_delay := initTriangle (systolic_row_count - 1)
      systolicArray := initArray systolic_row_count
      controller := ⟨systolic_row_count, X_col_count, 0⟩ }

/-- The state a valid construction with array width `N` and stream
length `L` produces. -/
def initTopState (N L : Nat) : OutputStationaryTopLevel :=
  { arrayWidth := N
    streamLength := L
    X_mem := ⟨L, N, fun k => .matrixElem "X" (k % N) (k / N)⟩
    W_mem := ⟨L, N, fun k => .matrixElem "W" (k / N) (k % N)⟩
    Y_mem := ⟨N, N, fun _ => .constInt 0⟩
    X_delay := initTriangle (N - 1)
    W_delay := initTriangle (N - 1)
    systolicArray := initArray N
    controller := ⟨N, L, 0⟩ }

lemma topConstruct_valid (N L : Nat) (hN : 1 ≤ N) :
    topConstruct N L L N N N = .ok (initTopState N L) := by
  simp only [topConstruct, matrixRAMNew, initTopState]
  rw [if_neg (by simp), if_neg (by simp), if_neg (by simp),
    if_neg (by omega)]
  rfl

/-- Method `OutputStationaryTopLevel.update` (App.js lines 449-472): fetch
control signals, advance the controller, conditionally read one row
from each input memory, run it through the delay triangles (reading the
pre-update skewed output), read the array's pre-update output vector,
conditionally write it to the output memory, then update the array. -/
def topUpdate (s : OutputStationaryTopLevel) :
    Except SimError OutputStationaryTopLevel :=
  let controls := produceControlSignals s.controller
  let ctl' := controllerUpdate s.controller
  (if controls.X_memReadEnable then
      readRow s.X_mem controls.X_memReadAddress 0 s.arrayWidth
    else .ok (List.replicate s.arrayWidth (.constInt 0))).bind fun X_in =>
  (if controls.W_memReadEnable then
      readRow s.W_mem controls.W_memReadAddress 0 s.arrayWidth
    else .ok (List.replicate s.arrayWidth (.constInt 0))).bind fun W_in =>
  (triangleProduceOutput s.X_delay X_in).bind fun X_in_delayed =>
  (triangleUpdate s.X_delay X_in).bind fun Xd =>
  (triangleProduceOutput s.W_delay W_in).bind fun W_in_delayed =>
  (triangleUpdate s.W_delay W_in).bind fun Wd =>
  let Y_out := arrayProduceOutput s.systolicArray controls.movesOutputDown
  (if controls.Y_memWriteEnable then
      writeRow s.Y_mem controls.Y_memWriteAddress 0 s.arrayWidth Y_out
    else .ok s.Y_mem).bind fun Ym =>
  (arrayUpdate s.systolicArray X_in_delayed W_in_delayed
    controls.movesOutputDown).map fun arr =>
  { s with
    controller := ctl'
    X_delay := Xd
    W_delay := Wd
    Y_mem := Ym
    systolicArray := arr }

/-- The simulation loop of `simulate`: take a snapshot of the current
state, then update, `n` times; returns the snapshots in order together
with the final state (held by the mutated object in JS). -/
def simLoop (s : OutputStationaryTopLevel) (n : Nat) :
    Except SimError (List OutputStationaryTopLevel ×
      OutputStationaryTopLevel) :=
  match n with
  | 0 => .ok ([], s)
  | n + 1 =>
    (topUpdate s).bind fun s' =>
    (simLoop s' n).map fun p => (s :: p.1, p.2)

/-- Method `OutputStationaryTopLevel.simulate` (App.js lines 506-516): run for
`numCycles` cycles, defaulting to `3 * arrayWidth + streamLength`. -/
def simulate (s : OutputStationaryTopLevel) (numCycles : Option Nat) :
    Except SimError (List OutputStationaryTopLevel ×
      OutputStationaryTopLevel) :=
  match numCycles with
  | none => simLoop s (3 * s.arrayWidth + s.streamLength)
  | some n => simLoop s n

/-- C3: with `drainStart = (2N - 1) + L`, the controller enables the
X/W memory reads exactly while `c < L` with address `c`; enables the
output-memory write exactly for `drainStart ≤ c < drainStart + N` with
an address counting down from `N - 1` to `0`; asserts the evict flag
exactly for `c ≥ drainStart`; and its update advances the cycle count
by exactly one. -/
theorem controller_signal_laws (ctl : OutputStationaryController) :
    let N := ctl.arrayWidth
    let L := ctl.streamLength
    let c := ctl.cycleCount
    let drainStart : Int := (2 * (N : Int) - 1) + (L : Int)
    ((produceControlSignals ctl).X_memReadEnable = true ↔ c < L) ∧
    (produceControlSignals ctl).X_memReadAddress = (c : Int) ∧
    ((produceControlSignals ctl).W_memReadEnable = true ↔ c < L) ∧
    (produceControlSignals ctl).W_memReadAddress = (c : Int) ∧
    ((produceControlSignals ctl).Y_memWriteEnable = true ↔
      (drainStart ≤ (c : Int) ∧ (c : Int) < drainStart + (N : Int))) ∧
    (produceControlSignals ctl).Y_memWriteAddress =
      ((N : Int) - 1) - ((c : Int) - drainStart) ∧
    ((produceControlSignals ctl).movesOutputDown = true ↔
      drainStart ≤ (c : Int)) ∧
    (controllerUpdate ctl).cycleCount = ctl.cycleCount + 1 := by
  simp [produceControlSignals, controllerUpdate]

/-- C5: with the evict control asserted, `produce_output` is the vector
of the bottom row's Acc registers; the update shifts every Acc one row
downward, resets row 0's Acc to the zero constant, and ignores the X/W
input vectors entirely; with the evict control deasserted,
`produce_output` is a vector of N zero constants. -/
theorem systolicArray_evict_behaviour (A : SystolicArray)
    (xs ws xs' ws' : List Value) (i j : Nat) (hi : i < A.N)
    (hj : j < A.N) :
    (arrayProduceOutput A true).length = A.N ∧
    (arrayProduceOutput A true).getD j (.constInt 0) =
      (A.array (A.N - 1) j).Acc ∧
    (arrayProduceOutput A false).length = A.N ∧
    (arrayProduceOutput A false).getD j (.constInt 0) = .constInt 0 ∧
    arrayUpdate A xs ws true = arrayUpdate A xs' ws' true ∧
    (arrayUpdate A xs ws true).map (fun A' => (A'.array i j).Acc) =
      .ok (if i = 0 then .constInt 0 else (A.array (i - 1) j).Acc) := by
  refine ⟨by simp [arrayProduceOutput], ?_, by simp [arrayProduceOutput],
    ?_, rfl, ?_⟩
  · rw [arrayProduceOutput, if_pos rfl, getD_range_map, if_pos hj]
  · rw [arrayProduceOutput, if_neg (by simp), getD_range_map, if_pos hj]
  · rw [arrayUpdate, if_pos rfl, except_map_ok]
    dsimp only
    rw [if_pos ⟨hi, hj⟩]

/-- Witness for `systolicArray_evict_behaviour` on a concrete 2×2
array. -/
theorem systolicArray_evict_behaviour_witness :
    (0 < (initArray 2).N ∧ 1 < (initArray 2).N) ∧
    ((arrayUpdate (initArray 2) [] [] true).map
        (fun A' => (A'.array 1 0).Acc) =
      .ok (if (1 : Nat) = 0 then .constInt 0
        else ((initArray 2).array 0 0).Acc)) := by
  refine ⟨⟨by decide, by decide⟩, ?_⟩
  exact (systolicArray_evict_behaviour (initArray 2) [] [] [] [] 1 0
    (by decide) (by decide)).2.2.2.2.2

/-- C7: constructing the top level returns the `DimensionMismatch`
failure (and hence no simulation state) exactly when the factor
matrices' inner dimensions disagree, the factor matrices' outer
dimensions differ from the array dimensions, or the array is not
square; the checks run before any submodule is built. -/
theorem topConstruct_dimension_law (Xr Xc Wr Wc Sr Sc : Nat) :
    topConstruct Xr Xc Wr Wc Sr Sc = .error .dimensionMismatch ↔
      (Xc ≠ Wr ∨ Xr ≠ Sr ∨ Wc ≠ Sc ∨ Sr ≠ Sc) := by
  constructor
  · intro h
    by_contra hc
    push_neg at hc
    obtain ⟨h1, h2, h3, h4⟩ := hc
    rw [topConstruct, if_neg (by simpa using h1),
      if_neg (by simp [h2, h3]), if_neg (by simpa using h4)] at h
    by_cases h0 : Sr = 0
    · rw [if_pos h0] at h
      exact SimError.noConfusion (Except.error.inj h)
    · rw [if_neg h0] at h
      simp only [matrixRAMNew] at h
      exact Except.noConfusion h
  · intro h
    rw [topConstruct]
    by_cases h1 : Xc ≠ Wr
    · rw [if_pos h1]
    · rw [if_neg h1]
      by_cases h2 : Xr ≠ Sr ∨ Wc ≠ Sc
      · rw [if_pos h2]
      · rw [if_neg h2]
        push_neg at h1 h2
        rw [if_pos (by tauto)]

/-- Quantity `drainStart`: cycle at which output eviction begins
(`completeCycle` in the controller; valid for `N ≥ 1`). -/
def drainStart (N L : Nat) : Nat := 2 * N - 1 + L

/-- The vector read from the X memory at cycle `t` (column `t` of X
thanks to the transposed storage), or zeros after the stream ends. -/
def specXinList (N L t : Nat) : List Value :=
  (List.range N).map fun r =>
    if t < L then .matrixElem "X" r t else .constInt 0

/-- The vector read from the W memory at cycle `t` (row `t` of W), or
zeros after the stream ends. -/
def specWinList (N L t : Nat) : List Value :=
  (List.range N).map fun q =>
    if t < L then .matrixElem "W" t q else .constInt 0

/-- X delay-triangle register (chain `i`, slot `j`) before cycle `t`:
the stream element inserted `j + 1` cycles ago. -/
def specDelayX (N L t i j : Nat) : Value :=
  if i < N - 1 ∧ j ≤ i ∧ j + 1 ≤ t ∧ t - (j + 1) < L then
    .matrixElem "X" (i + 1) (t - (j + 1))
  else .constInt 0

/-- W delay-triangle register (chain `i`, slot `j`) before cycle `t`. -/
def specDelayW (N L t i j : Nat) : Value :=
  if i < N - 1 ∧ j ≤ i ∧ j + 1 ≤ t ∧ t - (j + 1) < L then
    .matrixElem "W" (t - (j + 1)) (i + 1)
  else .constInt 0

/-- The skewed X vector entering the array at cycle `t`:
slot `i` carries `X[i][t - i]` while `0 ≤ t - i < L`. -/
def specXdelayed (N L t : Nat) : List Value :=
  (List.range N).map fun i =>
    if i ≤ t ∧ t - i < L then .matrixElem "X" i (t - i) else .constInt 0

/-- The skewed W vector entering the array at cycle `t`. -/
def specWdelayed (N L t : Nat) : List Value :=
  (List.range N).map fun j =>
    if j ≤ t ∧ t - j < L then .matrixElem "W" (t - j) j else .constInt 0

/-- X register of PE (i, j) before cycle `t`: the element that entered
the array `j + 1` cycles ago on row `i`. -/
def specXreg (L t i j : Nat) : Value :=
  if i + j + 1 ≤ t ∧ t - (i + j + 1) < L then
    .matrixElem "X" i (t - (i + j + 1))
  else .constInt 0

/-- W register of PE (i, j) before cycle `t`. -/
def specWreg (L t i j : Nat) : Value :=
  if i + j + 1 ≤ t ∧ t - (i + j + 1) < L then
    .matrixElem "W" (t - (i + j + 1)) j
  else .constInt 0

/-- Acc register of PE (i, j) before cycle `t`: during the fill/stream
phase a partial sum of `min (t - (i+j+1)) L` terms once the first fold
has landed; during the drain phase the partial sum shifted down from
row `i - (t - drainStart)`. -/
def specAcc (N L t i j : Nat) : Value :=
  if t ≤ drainStart N L then
    (if 1 ≤ L ∧ i + j + 2 ≤ t then
      .partialSum "X" "W" i j (min (t - (i + j + 1)) L)
    else .constInt 0)
  else
    (if 1 ≤ L ∧ t - drainStart N L ≤ i then
      .partialSum "X" "W" (i - (t - drainStart N L)) j L
    else .constInt 0)

/-- The whole register file of PE (i, j) before cycle `t`. -/
def specPE (N L t i j : Nat) : PERegs :=
  if i < N ∧ j < N then
    ⟨specXreg L t i j, specWreg L t i j, specAcc N L t i j⟩
  else initPE

/-- Output-memory cell `k` before cycle `t`: row `r = k / N` is written
at cycle `drainStart + (N - 1 - r)` and therefore holds its final
partial sum from cycle `drainStart + (N - r)` on. -/
def specY (N L t k : Nat) : Value :=
  if 1 ≤ L ∧ k < N * N ∧ drainStart N L + (N - k / N) ≤ t then
    .partialSum "X" "W" (k / N) (k % N) L
  else .constInt 0

/-- Closed form of the whole top-level state before cycle `t` for a
valid construction of array width `N` and stream length `L`. -/
def specState (N L t : Nat) : OutputStationaryTopLevel :=
  { arrayWidth := N
    streamLength := L
    X_mem := ⟨L, N, fun k => .matrixElem "X" (k % N) (k / N)⟩
    W_mem := ⟨L, N, fun k => .matrixElem "W" (k / N) (k % N)⟩
    Y_mem := ⟨N, N, specY N L t⟩
    X_delay := ⟨N - 1, specDelayX N L t⟩
    W_delay := ⟨N - 1, specDelayW N L t⟩
    systolicArray := ⟨N, specPE N L t⟩
    controller := ⟨N, L, t⟩ }

lemma specState_zero (N L : Nat) :
    specState N L 0 = initTopState N L := by
  have hY : specY N L 0 = fun _ => Value.constInt 0 := by
    funext k
    simp only [specY, drainStart]
    rw [if_neg (by omega)]
  have hDX : specDelayX N L 0 = fun _ _ => Value.constInt 0 := by
    funext i j
    simp only [specDelayX]
    rw [if_neg (by omega)]
  have hDW : specDelayW N L 0 = fun _ _ => Value.constInt 0 := by
    funext i j
    simp only [specDelayW]
    rw [if_neg (by omega)]
  have hPE : specPE N L 0 = fun _ _ => initPE := by
    funext i j
    simp only [specPE, specXreg, specWreg, specAcc, drainStart]
    by_cases h : i < N ∧ j < N
    · rw [if_pos h, if_neg (by omega), if_neg (by omega),
        if_pos (by omega), if_neg (by omega)]
      rfl
    · rw [if_neg h]
  unfold specState initTopState
  rw [hY, hDX, hDW, hPE]
  rfl

lemma div_eq_of_window (N r k : Nat) (hN : 0 < N) (h1 : r * N ≤ k)
    (h2 : k < r * N + N) : k / N = r := by
  have ha : r ≤ k / N := (Nat.le_div_iff_mul_le hN).2 h1
  have hb : k / N < r + 1 := by
    rw [Nat.div_lt_iff_lt_mul hN]
    calc k < r * N + N := h2
    _ = (r + 1) * N := by ring
  omega

lemma window_of_div (N k : Nat) (hN : 0 < N) :
    (k / N) * N ≤ k ∧ k < (k / N) * N + N := by
  have h := Nat.div_add_mod k N
  have hm : k % N < N := Nat.mod_lt _ hN
  have he : N * (k / N) = (k / N) * N := by ring
  omega

lemma mod_eq_of_window (N r k : Nat) (hN : 0 < N) (h1 : r * N ≤ k)
    (h2 : k < r * N + N) : k % N = k - r * N := by
  have hd := div_eq_of_window N r k hN h1 h2
  have h := Nat.div_add_mod k N
  rw [hd] at h
  have he : N * r = r * N := by ring
  omega

lemma range_map_const {α : Type} (n : Nat) (c : α) :
    (List.range n).map (fun _ => c) = List.replicate n c := by
  induction n with
  | zero => rfl
  | succ m ih =>
    rw [List.range_succ, List.map_append, ih, List.replicate_succ']
    rfl

lemma controls_read_t (N L t : Nat) :
    (produceControlSignals ⟨N, L, t⟩).X_memReadEnable = decide (t < L) ∧
    (produceControlSignals ⟨N, L, t⟩).X_memReadAddress = (t : Int) ∧
    (produceControlSignals ⟨N, L, t⟩).W_memReadEnable = decide (t < L) ∧
    (produceControlSignals ⟨N, L, t⟩).W_memReadAddress = (t : Int) := by
  refine ⟨rfl, rfl, rfl, rfl⟩

lemma controls_moves_t (N L t : Nat) (hN : 1 ≤ N) :
    (produceControlSignals ⟨N, L, t⟩).movesOutputDown =
      decide (drainStart N L ≤ t) := by
  simp only [produceControlSignals, drainStart, decide_eq_decide]
  omega

lemma controls_write_t (N L t : Nat) (hN : 1 ≤ N) :
    (produceControlSignals ⟨N, L, t⟩).Y_memWriteEnable =
      decide (drainStart N L ≤ t ∧ t < drainStart N L + N) := by
  simp only [produceControlSignals, drainStart, decide_eq_decide]
  omega

lemma controls_writeAddr_t (N L t : Nat) (hN : 1 ≤ N)
    (h1 : drainStart N L ≤ t) (h2 : t < drainStart N L + N) :
    (produceControlSignals ⟨N, L, t⟩).Y_memWriteAddress.toNat =
      N - 1 - (t - drainStart N L) ∧
    0 ≤ (produceControlSignals ⟨N, L, t⟩).Y_memWriteAddress ∧
    (produceControlSignals ⟨N, L, t⟩).Y_memWriteAddress < (N : Int) := by
  simp only [produceControlSignals, drainStart] at h1 h2 ⊢
  refine ⟨by omega, by omega, by omega⟩

lemma checkPosition_ok (m : MatrixRAM) (r c : Int) (e : Nat)
    (hr0 : 0 ≤ r) (hr : r < (m.row_count : Int)) (hc0 : 0 ≤ c)
    (hc : c + e ≤ (m.col_count : Int)) :
    checkPosition m r c e = .ok () := by
  rw [checkPosition,
    if_neg (show ¬(r < 0 ∨ (m.row_count : Int) ≤ r) by omega),
    if_neg (show ¬(c < 0 ∨ (m.col_count : Int) < c + e) by omega)]

/-- The conditional X-memory read of the top-level update, evaluated on
the closed-form state. -/
lemma topRead_X (N L t : Nat) (hN : 1 ≤ N) :
    (if (produceControlSignals ⟨N, L, t⟩).X_memReadEnable = true then
        readRow ⟨L, N, fun k => .matrixElem "X" (k % N) (k / N)⟩
          (produceControlSignals ⟨N, L, t⟩).X_memReadAddress 0 N
      else .ok (List.replicate N (.constInt 0))) =
      .ok (specXinList N L t) := by
  rcases controls_read_t N L t with ⟨he, ha, -, -⟩
  rw [he, ha]
  by_cases hL : t < L
  · rw [if_pos (by simp [hL])]
    rw [readRow, checkPosition_ok _ _ _ _ (by omega)
      (by dsimp only; omega) (by omega)
      (by dsimp only; omega)]
    rw [except_map_ok, specXinList]
    refine congrArg Except.ok (List.map_congr_left fun k hk => ?_)
    rw [List.mem_range] at hk
    rw [if_pos hL]
    dsimp only
    rw [show ((t : Int).toNat * N + (0 : Int).toNat + k) = t * N + 0 + k
      by simp]
    rw [mod_eq_of_window N t (t * N + 0 + k) (by omega) (by omega)
      (by omega)]
    rw [div_eq_of_window N t (t * N + 0 + k) (by omega) (by omega)
      (by omega)]
    congr 1
    omega
  · rw [if_neg (by simp [hL]), specXinList]
    refine congrArg Except.ok ?_
    rw [show ((List.range N).map fun r =>
      if t < L then Value.matrixElem "X" r t else Value.constInt 0) =
      (List.range N).map fun _ => Value.constInt 0 from
      List.map_congr_left fun r _ => by rw [if_neg hL]]
    rw [range_map_const]

/-- The conditional W-memory read of the top-level update, evaluated on
the closed-form state. -/
lemma topRead_W (N L t : Nat) (hN : 1 ≤ N) :
    (if (produceControlSignals ⟨N, L, t⟩).W_memReadEnable = true then
        readRow ⟨L, N, fun k => .matrixElem "W" (k / N) (k % N)⟩
          (produceControlSignals ⟨N, L, t⟩).W_memReadAddress 0 N
      else .ok (List.replicate N (.constInt 0))) =
      .ok (specWinList N L t) := by
  rcases controls_read_t N L t with ⟨-, -, he, ha⟩
  rw [he, ha]
  by_cases hL : t < L
  · rw [if_pos (by simp [hL])]
    rw [readRow, checkPosition_ok _ _ _ _ (by omega)
      (by dsimp only; omega) (by omega)
      (by dsimp only; omega)]
    rw [except_map_ok, specWinList]
    refine congrArg Except.ok (List.map_congr_left fun k hk => ?_)
    rw [List.mem_range] at hk
    rw [if_pos hL]
    dsimp only
    rw [show ((t : Int).toNat * N + (0 : Int).toNat + k) = t * N + 0 + k
      by simp]
    rw [mod_eq_of_window N t (t * N + 0 + k) (by omega) (by omega)
      (by omega)]
    rw [div_eq_of_window N t (t * N + 0 + k) (by omega) (by omega)
      (by omega)]
    congr 1
    omega
  · rw [if_neg (by simp [hL]), specWinList]
    refine congrArg Except.ok ?_
    rw [show ((List.range N).map fun q =>
      if t < L then Value.matrixElem "W" t q else Value.constInt 0) =
      (List.range N).map fun _ => Value.constInt 0 from
      List.map_congr_left fun q _ => by rw [if_neg hL]]
    rw [range_map_const]

lemma specXinList_length (N L t : Nat) : (specXinList N L t).length = N := by
  simp [specXinList]

lemma specWinList_length (N L t : Nat) : (specWinList N L t).length = N := by
  simp [specWinList]

/-- The X delay triangle's pre-update output on the closed-form state:
the skewed X vector. -/
lemma topDelayX_produce (N L t : Nat) (hN : 1 ≤ N) :
    triangleProduceOutput ⟨N - 1, specDelayX N L t⟩ (specXinList N L t) =
      .ok (specXdelayed N L t) := by
  rw [triangleProduceOutput_ok _ _
    (by rw [specXinList_length]; dsimp only; omega)]
  refine congrArg Except.ok ?_
  dsimp only
  rw [show N - 1 + 1 = N by omega, specXdelayed]
  refine List.map_congr_left fun i hi => ?_
  rw [List.mem_range] at hi
  by_cases h0 : i = 0
  · subst h0
    rw [if_pos rfl, specXinList, getD_range_map, if_pos hi]
    by_cases hL : t < L
    · rw [if_pos hL, if_pos (show 0 ≤ t ∧ t - 0 < L by omega)]
      congr 1
    · rw [if_neg hL, if_neg (show ¬(0 ≤ t ∧ t - 0 < L) by omega)]
  · rw [if_neg h0, specDelayX]
    by_cases hc : i ≤ t ∧ t - i < L
    · rw [if_pos (show i - 1 < N - 1 ∧ i - 1 ≤ i - 1 ∧ i - 1 + 1 ≤ t ∧
        t - (i - 1 + 1) < L by omega)]
      rw [if_pos hc]
      congr 1 <;> omega
    · rw [if_neg (show ¬(i - 1 < N - 1 ∧ i - 1 ≤ i - 1 ∧ i - 1 + 1 ≤ t ∧
        t - (i - 1 + 1) < L) by omega)]
      rw [if_neg hc]

/-- The W delay triangle's pre-update output on the closed-form state. -/
lemma topDelayW_produce (N L t : Nat) (hN : 1 ≤ N) :
    triangleProduceOutput ⟨N - 1, specDelayW N L t⟩ (specWinList N L t) =
      .ok (specWdelayed N L t) := by
  rw [triangleProduceOutput_ok _ _
    (by rw [specWinList_length]; dsimp only; omega)]
  refine congrArg Except.ok ?_
  dsimp only
  rw [show N - 1 + 1 = N by omega, specWdelayed]
  refine List.map_congr_left fun i hi => ?_
  rw [List.mem_range] at hi
  by_cases h0 : i = 0
  · subst h0
    rw [if_pos rfl, specWinList, getD_range_map, if_pos hi]
    by_cases hL : t < L
    · rw [if_pos hL, if_pos (show 0 ≤ t ∧ t - 0 < L by omega)]
      congr 1
    · rw [if_neg hL, if_neg (show ¬(0 ≤ t ∧ t - 0 < L) by omega)]
  · rw [if_neg h0, specDelayW]
    by_cases hc : i ≤ t ∧ t - i < L
    · rw [if_pos (show i - 1 < N - 1 ∧ i - 1 ≤ i - 1 ∧ i - 1 + 1 ≤ t ∧
        t - (i - 1 + 1) < L by omega)]
      rw [if_pos hc]
      congr 1 <;> omega
    · rw [if_neg (show ¬(i - 1 < N - 1 ∧ i - 1 ≤ i - 1 ∧ i - 1 + 1 ≤ t ∧
        t - (i - 1 + 1) < L) by omega)]
      rw [if_neg hc]

/-- The X delay triangle's update on the closed-form state advances the
register formula one cycle. -/
lemma topDelayX_update (N L t : Nat) (hN : 1 ≤ N) :
    triangleUpdate ⟨N - 1, specDelayX N L t⟩ (specXinList N L t) =
      .ok ⟨N - 1, specDelayX N L (t + 1)⟩ := by
  rw [triangleUpdate_ok _ _ (by rw [specXinList_length]; dsimp only; omega)]
  refine congrArg Except.ok ?_
  refine congrArg (DelayRegisterTriangle.mk (N - 1)) ?_
  funext i j
  dsimp only
  by_cases hir : i < N - 1 ∧ j ≤ i
  · rw [if_pos hir]
    by_cases h0 : j = 0
    · subst h0
      rw [if_pos rfl, specXinList, getD_range_map, specDelayX]
      by_cases hL : t < L
      · rw [if_pos (show i + 1 < N by omega), if_pos hL,
          if_pos (show i < N - 1 ∧ 0 ≤ i ∧ 0 + 1 ≤ t + 1 ∧
            t + 1 - (0 + 1) < L by omega)]
        congr 1
      · rw [if_pos (show i + 1 < N by omega), if_neg hL,
          if_neg (show ¬(i < N - 1 ∧ 0 ≤ i ∧ 0 + 1 ≤ t + 1 ∧
            t + 1 - (0 + 1) < L) by omega)]
    · rw [if_neg h0, specDelayX, specDelayX]
      by_cases hc : j ≤ t ∧ t - j < L
      · rw [if_pos (show i < N - 1 ∧ j - 1 ≤ i ∧ j - 1 + 1 ≤ t ∧
          t - (j - 1 + 1) < L by omega)]
        rw [if_pos (show i < N - 1 ∧ j ≤ i ∧ j + 1 ≤ t + 1 ∧
          t + 1 - (j + 1) < L by omega)]
        congr 1
        omega
      · rw [if_neg (show ¬(i < N - 1 ∧ j - 1 ≤ i ∧ j - 1 + 1 ≤ t ∧
          t - (j - 1 + 1) < L) by omega)]
        rw [if_neg (show ¬(i < N - 1 ∧ j ≤ i ∧ j + 1 ≤ t + 1 ∧
          t + 1 - (j + 1) < L) by omega)]
  · rw [if_neg hir, specDelayX, specDelayX,
      if_neg (fun hc => hir ⟨hc.1, hc.2.1⟩),
      if_neg (fun hc => hir ⟨hc.1, hc.2.1⟩)]

/-- The W delay triangle's update on the closed-form state. -/
lemma topDelayW_update (N L t : Nat) (hN : 1 ≤ N) :
    triangleUpdate ⟨N - 1, specDelayW N L t⟩ (specWinList N L t) =
      .ok ⟨N - 1, specDelayW N L (t + 1)⟩ := by
  rw [triangleUpdate_ok _ _ (by rw [specWinList_length]; dsimp only; omega)]
  refine congrArg Except.ok ?_
  refine congrArg (DelayRegisterTriangle.mk (N - 1)) ?_
  funext i j
  dsimp only
  by_cases hir : i < N - 1 ∧ j ≤ i
  · rw [if_pos hir]
    by_cases h0 : j = 0
    · subst h0
      rw [if_pos rfl, specWinList, getD_range_map, specDelayW]
      by_cases hL : t < L
      · rw [if_pos (show i + 1 < N by omega), if_pos hL,
          if_pos (show i < N - 1 ∧ 0 ≤ i ∧ 0 + 1 ≤ t + 1 ∧
            t + 1 - (0 + 1) < L by omega)]
        congr 1
      · rw [if_pos (show i + 1 < N by omega), if_neg hL,
          if_neg (show ¬(i < N - 1 ∧ 0 ≤ i ∧ 0 + 1 ≤ t + 1 ∧
            t + 1 - (0 + 1) < L) by omega)]
    · rw [if_neg h0, specDelayW, specDelayW]
      by_cases hc : j ≤ t ∧ t - j < L
      · rw [if_pos (show i < N - 1 ∧ j - 1 ≤ i ∧ j - 1 + 1 ≤ t ∧
          t - (j - 1 + 1) < L by omega)]
        rw [if_pos (show i < N - 1 ∧ j ≤ i ∧ j + 1 ≤ t + 1 ∧
          t + 1 - (j + 1) < L by omega)]
        congr 1
        omega
      · rw [if_neg (show ¬(i < N - 1 ∧ j - 1 ≤ i ∧ j - 1 + 1 ≤ t ∧
          t - (j - 1 + 1) < L) by omega)]
        rw [if_neg (show ¬(i < N - 1 ∧ j ≤ i ∧ j + 1 ≤ t + 1 ∧
          t + 1 - (j + 1) < L) by omega)]
  · rw [if_neg hir, specDelayW, specDelayW,
      if_neg (fun hc => hir ⟨hc.1, hc.2.1⟩),
      if_neg (fun hc => hir ⟨hc.1, hc.2.1⟩)]

/-- The X wire feeding PE (i, j) on the closed-form state: the element
that enters the register at the end of cycle `t`. -/
lemma peInputX_spec (N L t i j : Nat) (hi : i < N) (hj : j < N) :
    peInputX ⟨N, specPE N L t⟩ (specXdelayed N L t) i j =
      (if i + j ≤ t ∧ t - (i + j) < L then
        Value.matrixElem "X" i (t - (i + j)) else .constInt 0) := by
  rw [peInputX]
  by_cases h0 : j = 0
  · subst h0
    rw [if_pos rfl, specXdelayed, getD_range_map, if_pos hi]
    by_cases hc : i ≤ t ∧ t - i < L
    · rw [if_pos hc, if_pos (show i + 0 ≤ t ∧ t - (i + 0) < L by omega)]
      congr 1
    · rw [if_neg hc, if_neg (show ¬(i + 0 ≤ t ∧ t - (i + 0) < L) by omega)]
  · rw [if_neg h0]
    dsimp only
    rw [specPE, if_pos ⟨hi, by omega⟩]
    dsimp only
    rw [specXreg]
    by_cases hc : i + j ≤ t ∧ t - (i + j) < L
    · rw [if_pos (show i + (j - 1) + 1 ≤ t ∧ t - (i + (j - 1) + 1) < L
        by omega), if_pos hc]
      congr 1
      omega
    · rw [if_neg (show ¬(i + (j - 1) + 1 ≤ t ∧ t - (i + (j - 1) + 1) < L)
        by omega), if_neg hc]

/-- The W wire feeding PE (i, j) on the closed-form state. -/
lemma peInputW_spec (N L t i j : Nat) (hi : i < N) (hj : j < N) :
    peInputW ⟨N, specPE N L t⟩ (specWdelayed N L t) i j =
      (if i + j ≤ t ∧ t - (i + j) < L then
        Value.matrixElem "W" (t - (i + j)) j else .constInt 0) := by
  rw [peInputW]
  by_cases h0 : i = 0
  · subst h0
    rw [if_pos rfl, specWdelayed, getD_range_map, if_pos hj]
    by_cases hc : j ≤ t ∧ t - j < L
    · rw [if_pos hc, if_pos (show 0 + j ≤ t ∧ t - (0 + j) < L by omega)]
      congr 1
      omega
    · rw [if_neg hc, if_neg (show ¬(0 + j ≤ t ∧ t - (0 + j) < L) by omega)]
  · rw [if_neg h0]
    dsimp only
    rw [specPE, if_pos ⟨by omega, hj⟩]
    dsimp only
    rw [specWreg]
    by_cases hc : i + j ≤ t ∧ t - (i + j) < L
    · rw [if_pos (show i - 1 + j + 1 ≤ t ∧ t - (i - 1 + j + 1) < L
        by omega), if_pos hc]
      congr 1
      omega
    · rw [if_neg (show ¬(i - 1 + j + 1 ≤ t ∧ t - (i - 1 + j + 1) < L)
        by omega), if_neg hc]

lemma specXreg_succ_input (L t i j : Nat) :
    (if i + j ≤ t ∧ t - (i + j) < L then
      Value.matrixElem "X" i (t - (i + j)) else Value.constInt 0) =
      specXreg L (t + 1) i j := by
  rw [specXreg]
  by_cases hc : i + j ≤ t ∧ t - (i + j) < L
  · rw [if_pos hc, if_pos (show i + j + 1 ≤ t + 1 ∧
      t + 1 - (i + j + 1) < L by omega)]
    congr 1
    omega
  · rw [if_neg hc, if_neg (show ¬(i + j + 1 ≤ t + 1 ∧
      t + 1 - (i + j + 1) < L) by omega)]

lemma specWreg_succ_input (L t i j : Nat) :
    (if i + j ≤ t ∧ t - (i + j) < L then
      Value.matrixElem "W" (t - (i + j)) j else Value.constInt 0) =
      specWreg L (t + 1) i j := by
  rw [specWreg]
  by_cases hc : i + j ≤ t ∧ t - (i + j) < L
  · rw [if_pos hc, if_pos (show i + j + 1 ≤ t + 1 ∧
      t + 1 - (i + j + 1) < L by omega)]
    congr 1
    omega
  · rw [if_neg hc, if_neg (show ¬(i + j + 1 ≤ t + 1 ∧
      t + 1 - (i + j + 1) < L) by omega)]

lemma specAcc_succ_idle (N L t i j : Nat) (ht : t < drainStart N L)
    (hG : ¬(i + j + 1 ≤ t ∧ t - (i + j + 1) < L)) :
    specAcc N L t i j = specAcc N L (t + 1) i j := by
  simp only [specAcc]
  rw [if_pos (show t ≤ drainStart N L by omega),
    if_pos (show t + 1 ≤ drainStart N L by omega)]
  by_cases h2 : 1 ≤ L ∧ i + j + 2 ≤ t
  · rw [if_pos h2, if_pos (show 1 ≤ L ∧ i + j + 2 ≤ t + 1 by omega)]
    congr 1
    omega
  · rw [if_neg h2, if_neg (show ¬(1 ≤ L ∧ i + j + 2 ≤ t + 1) by omega)]

/-- Folding a fresh first term: zero accumulator, reduction index 0. -/
lemma peUpdate_fold_zero (xn wn : String) (xi wj : Nat) (Xin Win : Value) :
    peUpdate ⟨.matrixElem xn xi 0, .matrixElem wn 0 wj, .constInt 0⟩
      Xin Win = .ok ⟨Xin, Win, .partialSum xn wn xi wj 1⟩ := by
  simp [peUpdate, isConstantZero]

/-- Folding a further term onto a matching partial sum. -/
lemma peUpdate_fold (xn wn : String) (xi k wj : Nat) (Xin Win : Value) :
    peUpdate ⟨.matrixElem xn xi k, .matrixElem wn k wj,
      .partialSum xn wn xi wj k⟩ Xin Win =
      .ok ⟨Xin, Win, .partialSum xn wn xi wj (k + 1)⟩ := by
  simp [peUpdate, isConstantZero]

/-- Pass-through: either operand register is the zero constant. -/
lemma peUpdate_idle (X W Acc Xin Win : Value)
    (h : isConstantZero X = true ∨ isConstantZero W = true) :
    peUpdate ⟨X, W, Acc⟩ Xin Win = .ok ⟨Xin, Win, Acc⟩ := by
  cases X <;> cases W <;> simp_all [peUpdate, isConstantZero]

/-- One PE step on the closed-form state (fill/stream phase). -/
lemma peStep (N L t i j : Nat) (hi : i < N) (hj : j < N)
    (ht : t < drainStart N L) :
    peUpdate (specPE N L t i j)
      (peInputX ⟨N, specPE N L t⟩ (specXdelayed N L t) i j)
      (peInputW ⟨N, specPE N L t⟩ (specWdelayed N L t) i j) =
      .ok (specPE N L (t + 1) i j) := by
  rw [peInputX_spec N L t i j hi hj, peInputW_spec N L t i j hi hj,
    specXreg_succ_input, specWreg_succ_input]
  rw [specPE, if_pos ⟨hi, hj⟩]
  rw [show specPE N L (t + 1) i j = ⟨specXreg L (t + 1) i j,
    specWreg L (t + 1) i j, specAcc N L (t + 1) i j⟩ from by
      rw [specPE, if_pos ⟨hi, hj⟩]]
  by_cases hG : i + j + 1 ≤ t ∧ t - (i + j + 1) < L
  · rw [show specXreg L t i j = Value.matrixElem "X" i (t - (i + j + 1))
      from by rw [specXreg, if_pos hG]]
    rw [show specWreg L t i j = Value.matrixElem "W" (t - (i + j + 1)) j
      from by rw [specWreg, if_pos hG]]
    by_cases hk : i + j + 2 ≤ t
    · rw [show specAcc N L t i j = Value.partialSum "X" "W" i j
          (t - (i + j + 1)) from by
        rw [specAcc, if_pos (show t ≤ drainStart N L by omega),
          if_pos (show 1 ≤ L ∧ i + j + 2 ≤ t by omega)]
        congr 1
        omega]
      rw [peUpdate_fold "X" "W" i (t - (i + j + 1)) j _ _]
      rw [show specAcc N L (t + 1) i j = Value.partialSum "X" "W" i j
          (t - (i + j + 1) + 1) from by
        rw [specAcc, if_pos (show t + 1 ≤ drainStart N L by omega),
          if_pos (show 1 ≤ L ∧ i + j + 2 ≤ t + 1 by omega)]
        congr 1
        omega]
    · rw [show specAcc N L t i j = Value.constInt 0 from by
        rw [specAcc, if_pos (show t ≤ drainStart N L by omega),
          if_neg (show ¬(1 ≤ L ∧ i + j + 2 ≤ t) by omega)]]
      rw [show t - (i + j + 1) = 0 by omega]
      rw [peUpdate_fold_zero]
      rw [show specAcc N L (t + 1) i j = Value.partialSum "X" "W" i j 1
          from by
        rw [specAcc, if_pos (show t + 1 ≤ drainStart N L by omega),
          if_pos (show 1 ≤ L ∧ i + j + 2 ≤ t + 1 by omega)]
        congr 1
        omega]
  · rw [show specXreg L t i j = Value.constInt 0 from by
      rw [specXreg, if_neg hG]]
    rw [show specWreg L t i j = Value.constInt 0 from by
      rw [specWreg, if_neg hG]]
    rw [peUpdate_idle _ _ _ _ _ (Or.inl (by decide))]
    rw [specAcc_succ_idle N L t i j ht hG]

lemma mem_idxListRev (N : Nat) (p : Nat × Nat) (hp : p ∈ idxListRev N) :
    p.1 < N ∧ p.2 < N := by
  simp only [idxListRev, List.mem_flatMap, List.mem_map, List.mem_reverse,
    List.mem_range] at hp
  obtain ⟨i, hi, j, hj, rfl⟩ := hp
  exact ⟨hi, hj⟩

/-- The systolic-array update during the fill/stream phase advances the
closed-form PE grid by one cycle (and raises no error). -/
lemma topArray_update_noevict (N L t : Nat)
    (ht : t < drainStart N L) :
    arrayUpdate ⟨N, specPE N L t⟩ (specXdelayed N L t)
      (specWdelayed N L t) false = .ok ⟨N, specPE N L (t + 1)⟩ := by
  rw [arrayUpdate, if_neg (show ¬(false = true) by simp)]
  dsimp only
  have hnone : ∀ p ∈ idxListRev N,
      exceptError? (peUpdate (specPE N L t p.1 p.2)
        (peInputX ⟨N, specPE N L t⟩ (specXdelayed N L t) p.1 p.2)
        (peInputW ⟨N, specPE N L t⟩ (specWdelayed N L t) p.1 p.2)) =
        none := by
    intro p hp
    obtain ⟨h1, h2⟩ := mem_idxListRev N p hp
    rw [peStep N L t p.1 p.2 h1 h2 ht]
    rfl
  rw [List.findSome?_eq_none_iff.2 hnone]
  refine congrArg Except.ok (congrArg (SystolicArray.mk N) ?_)
  funext i j
  by_cases h : i < N ∧ j < N
  · rw [if_pos h, peStep N L t i j h.1 h.2 ht]
    rfl
  · rw [if_neg h]
    rw [specPE, if_neg h, specPE, if_neg h]

/-- The systolic-array update during the drain phase shifts the
closed-form accumulators down one row, matching the formula at the next
cycle; the X/W inputs are irrelevant. -/
lemma topArray_update_evict (N L t : Nat) (hN : 1 ≤ N)
    (ht : drainStart N L ≤ t) (xs ws : List Value) :
    arrayUpdate ⟨N, specPE N L t⟩ xs ws true =
      .ok ⟨N, specPE N L (t + 1)⟩ := by
  rw [arrayUpdate, if_pos rfl]
  refine congrArg Except.ok (congrArg (SystolicArray.mk N) ?_)
  funext i j
  dsimp only
  by_cases h : i < N ∧ j < N
  · rw [if_pos h]
    rw [show specPE N L (t + 1) i j = ⟨specXreg L (t + 1) i j,
      specWreg L (t + 1) i j, specAcc N L (t + 1) i j⟩ from by
        rw [specPE, if_pos h]]
    have hX : (specPE N L t i j).X = specXreg L (t + 1) i j := by
      rw [specPE, if_pos h]
      dsimp only
      rw [specXreg, specXreg,
        if_neg (show ¬(i + j + 1 ≤ t ∧ t - (i + j + 1) < L) from by
          simp only [drainStart] at ht; omega),
        if_neg (show ¬(i + j + 1 ≤ t + 1 ∧ t + 1 - (i + j + 1) < L) from by
          simp only [drainStart] at ht; omega)]
    have hW : (specPE N L t i j).W = specWreg L (t + 1) i j := by
      rw [specPE, if_pos h]
      dsimp only
      rw [specWreg, specWreg,
        if_neg (show ¬(i + j + 1 ≤ t ∧ t - (i + j + 1) < L) from by
          simp only [drainStart] at ht; omega),
        if_neg (show ¬(i + j + 1 ≤ t + 1 ∧ t + 1 - (i + j + 1) < L) from by
          simp only [drainStart] at ht; omega)]
    rw [hX, hW]
    refine congrArg (PERegs.mk (specXreg L (t + 1) i j)
      (specWreg L (t + 1) i j)) ?_
    by_cases h0 : i = 0
    · subst h0
      rw [if_pos rfl, specAcc,
        if_neg (show ¬(t + 1 ≤ drainStart N L) by omega),
        if_neg (show ¬(1 ≤ L ∧ t + 1 - drainStart N L ≤ 0) by omega)]
    · rw [if_neg h0, specPE, if_pos ⟨by omega, h.2⟩]
      dsimp only
      rw [specAcc, specAcc,
        if_neg (show ¬(t + 1 ≤ drainStart N L) by omega)]
      by_cases hts : t ≤ drainStart N L
      · rw [if_pos hts]
        by_cases hL : 1 ≤ L
        · rw [if_pos (show 1 ≤ L ∧ i - 1 + j + 2 ≤ t from ⟨hL, by
            simp only [drainStart] at ht hts; omega⟩),
            if_pos (show 1 ≤ L ∧ t + 1 - drainStart N L ≤ i from
              ⟨hL, by omega⟩)]
          rw [show min (t - (i - 1 + j + 1)) L = L from by
            simp only [drainStart] at ht hts; omega]
          rw [show i - (t + 1 - drainStart N L) = i - 1 from by omega]
        · rw [if_neg (fun hc => hL hc.1), if_neg (fun hc => hL hc.1)]
      · rw [if_neg hts]
        by_cases hc : 1 ≤ L ∧ t - drainStart N L ≤ i - 1
        · rw [if_pos hc, if_pos (show 1 ≤ L ∧ t + 1 - drainStart N L ≤ i
            from ⟨hc.1, by omega⟩)]
          rw [show i - 1 - (t - drainStart N L) =
            i - (t + 1 - drainStart N L) from by omega]
        · rw [if_neg hc, if_neg (show ¬(1 ≤ L ∧
            t + 1 - drainStart N L ≤ i) from by omega)]
  · rw [if_neg h]
    rw [specPE, if_neg h, specPE, if_neg h]

/-- The array's output vector during the drain phase on the closed-form
state: the partial sums of the row currently at the bottom. -/
lemma arrayProduceOutput_spec_drain (N L t : Nat) (hN : 1 ≤ N)
    (h1 : drainStart N L ≤ t) (h2 : t < drainStart N L + N) :
    arrayProduceOutput ⟨N, specPE N L t⟩ true =
      (List.range N).map fun q =>
        if 1 ≤ L then
          Value.partialSum "X" "W" (N - 1 - (t - drainStart N L)) q L
        else Value.constInt 0 := by
  rw [arrayProduceOutput, if_pos rfl]
  dsimp only
  refine List.map_congr_left fun q hq => ?_
  rw [List.mem_range] at hq
  rw [specPE, if_pos ⟨by omega, hq⟩]
  dsimp only
  rw [specAcc]
  by_cases hts : t ≤ drainStart N L
  · rw [if_pos hts]
    have hdd : t - drainStart N L = 0 := by omega
    by_cases hL : 1 ≤ L
    · rw [if_pos (show 1 ≤ L ∧ N - 1 + q + 2 ≤ t from ⟨hL, by
        simp only [drainStart] at h1; omega⟩), if_pos hL]
      rw [hdd, Nat.sub_zero]
      rw [show min (t - (N - 1 + q + 1)) L = L from by
        simp only [drainStart] at h1 hts; omega]
    · rw [if_neg (fun hc => hL hc.1), if_neg hL]
  · rw [if_neg hts]
    by_cases hL : 1 ≤ L
    · rw [if_pos (show 1 ≤ L ∧ t - drainStart N L ≤ N - 1 from
        ⟨hL, by omega⟩), if_pos hL]
    · rw [if_neg (fun hc => hL hc.1), if_neg hL]

lemma specY_succ_nowrite (N L t k : Nat)
    (h : ¬(1 ≤ L ∧ k < N * N ∧
      drainStart N L + (N - k / N) = t + 1)) :
    specY N L t k = specY N L (t + 1) k := by
  rw [specY, specY]
  by_cases hc : 1 ≤ L ∧ k < N * N ∧ drainStart N L + (N - k / N) ≤ t
  · rw [if_pos hc, if_pos ⟨hc.1, hc.2.1, by omega⟩]
  · rw [if_neg hc, if_neg (show ¬(1 ≤ L ∧ k < N * N ∧
      drainStart N L + (N - k / N) ≤ t + 1) from fun hc2 => by
        exact absurd ⟨hc2.1, hc2.2.1, by omega⟩ hc)]

/-- The conditional Y-memory write of the top-level update, evaluated on
the closed-form state. -/
lemma topWrite_Y (N L t : Nat) (hN : 1 ≤ N) :
    (if (produceControlSignals ⟨N, L, t⟩).Y_memWriteEnable = true then
        writeRow ⟨N, N, specY N L t⟩
          (produceControlSignals ⟨N, L, t⟩).Y_memWriteAddress 0 N
          (arrayProduceOutput ⟨N, specPE N L t⟩
            (produceControlSignals ⟨N, L, t⟩).movesOutputDown)
      else .ok ⟨N, N, specY N L t⟩) = .ok ⟨N, N, specY N L (t + 1)⟩ := by
  rw [controls_write_t N L t hN]
  by_cases hw : drainStart N L ≤ t ∧ t < drainStart N L + N
  · rw [if_pos (by simp [hw])]
    rw [controls_moves_t N L t hN,
      show decide (drainStart N L ≤ t) = true from decide_eq_true hw.1]
    rw [arrayProduceOutput_spec_drain N L t hN hw.1 hw.2]
    obtain ⟨hA1, hA2, hA3⟩ := controls_writeAddr_t N L t hN hw.1 hw.2
    rw [writeRow, checkPosition_ok _ _ _ _ hA2 (by exact hA3)
      (by omega) (by dsimp only; omega)]
    rw [except_map_ok]
    refine congrArg Except.ok ?_
    refine congrArg (MatrixRAM.mk N N) ?_
    funext k
    rw [hA1]
    dsimp only
    rw [show ((0 : Int).toNat : Nat) = 0 from rfl, Nat.add_zero]
    by_cases hk : (N - 1 - (t - drainStart N L)) * N ≤ k ∧
        k < (N - 1 - (t - drainStart N L)) * N + N
    · rw [if_pos hk, getD_range_map,
        if_pos (show k - (N - 1 - (t - drainStart N L)) * N < N by omega)]
      have hdiv : k / N = N - 1 - (t - drainStart N L) :=
        div_eq_of_window N _ k (by omega) hk.1 hk.2
      have hmod : k % N = k - (N - 1 - (t - drainStart N L)) * N :=
        mod_eq_of_window N _ k (by omega) hk.1 hk.2
      have hksq : k < N * N := by
        calc k < (N - 1 - (t - drainStart N L)) * N + N := hk.2
        _ = (N - 1 - (t - drainStart N L) + 1) * N := by ring
        _ ≤ N * N := Nat.mul_le_mul_right N (by omega)
      rw [specY, hdiv, hmod]
      by_cases hL : 1 ≤ L
      · rw [if_pos hL, if_pos (show 1 ≤ L ∧ k < N * N ∧
          drainStart N L + (N - (N - 1 - (t - drainStart N L))) ≤ t + 1
          from ⟨hL, hksq, by omega⟩)]
      · rw [if_neg hL, if_neg (show ¬(1 ≤ L ∧ k < N * N ∧
          drainStart N L + (N - (N - 1 - (t - drainStart N L))) ≤ t + 1)
          from fun hc => hL hc.1)]
    · rw [if_neg hk]
      refine specY_succ_nowrite N L t k fun hc => ?_
      obtain ⟨hL, hsq, heq⟩ := hc
      have hdlt : k / N < N := by
        rw [Nat.div_lt_iff_lt_mul (by omega)]
        exact hsq
      have hwd := window_of_div N k (by omega)
      have hdd : k / N = N - 1 - (t - drainStart N L) := by
        revert heq hdlt
        generalize k / N = r
        intro heq hdlt
        omega
      rw [hdd] at hwd
      exact hk hwd
  · rw [if_neg (by simp [hw])]
    refine congrArg Except.ok (congrArg (MatrixRAM.mk N N) ?_)
    funext k
    refine specY_succ_nowrite N L t k fun hc => ?_
    obtain ⟨hL, hsq, heq⟩ := hc
    have hdlt : k / N < N := by
      rw [Nat.div_lt_iff_lt_mul (by omega)]
      exact hsq
    revert heq hdlt
    generalize k / N = r
    intro heq hdlt
    exact hw ⟨by omega, by omega⟩

lemma except_bind_ok' {ε α β : Type} (a : α) (f : α → Except ε β) :
    Except.bind (Except.ok a) f = f a := rfl

/-- One top-level cycle on the closed-form state: the update never
fails and advances every register formula by one cycle. -/
theorem specState_step (N L t : Nat) (hN : 1 ≤ N) :
    topUpdate (specState N L t) = .ok (specState N L (t + 1)) := by
  simp only [topUpdate, specState, controllerUpdate, except_bind_ok',
    topRead_X N L t hN, topRead_W N L t hN,
    topDelayX_produce N L t hN, topDelayW_produce N L t hN,
    topDelayX_update N L t hN, topDelayW_update N L t hN]
  rw [topWrite_Y N L t hN, except_bind_ok']
  rw [controls_moves_t N L t hN]
  by_cases hd : drainStart N L ≤ t
  · rw [show decide (drainStart N L ≤ t) = true from decide_eq_true hd]
    rw [topArray_update_evict N L t hN hd, except_map_ok]
  · rw [show decide (drainStart N L ≤ t) = false from
      decide_eq_false hd]
    rw [topArray_update_noevict N L t (by omega), except_map_ok]

/-- Running the simulation loop from the closed-form state: never
fails; the trace lists the closed-form states cycle by cycle and the
final state is the closed form at `t + n`. -/
lemma simLoop_spec (N L : Nat) (hN : 1 ≤ N) : ∀ (n t : Nat),
    simLoop (specState N L t) n =
      .ok ((List.range n).map (fun d => specState N L (t + d)),
        specState N L (t + n)) := by
  intro n
  induction n with
  | zero =>
    intro t
    simp [simLoop]
  | succ m ih =>
    intro t
    rw [simLoop]
    rw [specState_step N L t hN, except_bind_ok', ih (t + 1),
      except_map_ok]
    rw [List.range_succ_eq_map, List.map_cons, List.map_map]
    refine congrArg Except.ok ?_
    refine congrArg₂ Prod.mk (congrArg₂ List.cons ?_ ?_) ?_
    · rw [Nat.add_zero]
    · refine List.map_congr_left fun d _ => ?_
      show specState N L (t + 1 + d) = specState N L (t + (d + 1))
      exact congrArg (specState N L) (by omega)
    · exact congrArg (specState N L) (by omega)

/-- Inversion of a successful top-level construction: the dimension
checks passed, the array is non-degenerate, and the state is the
canonical initial state. -/
lemma topConstruct_ok_inv (Xr Xc Wr Wc Sr Sc : Nat)
    (s : OutputStationaryTopLevel)
    (h : topConstruct Xr Xc Wr Wc Sr Sc = .ok s) :
    Xc = Wr ∧ Xr = Sr ∧ Wc = Sc ∧ Sr = Sc ∧ 1 ≤ Sr ∧
      s = initTopState Sr Xc := by
  by_cases h1 : Xc = Wr
  · by_cases h2 : Xr = Sr
    · by_cases h3 : Wc = Sc
      · by_cases h4 : Sr = Sc
        · by_cases h5 : Sr = 0
          · rw [topConstruct, if_neg (by omega), if_neg (by omega),
              if_neg (by omega), if_pos h5] at h
            exact absurd h (by simp)
          · subst h1
            subst h2
            subst h3
            subst h4
            rw [topConstruct_valid Xr Xc (by omega)] at h
            refine ⟨rfl, rfl, rfl, rfl, by omega, (Except.ok.inj h).symm⟩
        · rw [topConstruct, if_neg (by omega), if_neg (by omega),
            if_pos h4] at h
          exact absurd h (by simp)
      · rw [topConstruct, if_neg (by omega),
          if_pos (show Xr ≠ Sr ∨ Wc ≠ Sc from Or.inr h3)] at h
        exact absurd h (by simp)
    · rw [topConstruct, if_neg (by omega),
        if_pos (show Xr ≠ Sr ∨ Wc ≠ Sc from Or.inl h2)] at h
      exact absurd h (by simp)
  · rw [topConstruct, if_pos h1] at h
    exact absurd h (by simp)

/-- C1 (amended: stream length at least 1): for every valid top-level
construction with array width N and stream length L ≥ 1, running
`simulate(null)` (3N + L cycles) succeeds and leaves every output
memory cell (i, j) equal to the partial sum over matrices X and W with
row index i, column index j and count exactly L. -/
theorem simulate_drain_completeness (Xr Xc Wr Wc Sr Sc : Nat)
    (s : OutputStationaryTopLevel)
    (hcons : topConstruct Xr Xc Wr Wc Sr Sc = .ok s)
    (hL : 1 ≤ s.streamLength) (i j : Nat)
    (hi : i < s.arrayWidth) (hj : j < s.arrayWidth) :
    (simulate s none).map
      (fun p => p.2.Y_mem.cells (i * s.arrayWidth + j)) =
      .ok (.partialSum "X" "W" i j s.streamLength) := by
  obtain ⟨-, -, -, -, hn, rfl⟩ :=
    topConstruct_ok_inv Xr Xc Wr Wc Sr Sc s hcons
  rw [← specState_zero Sr Xc] at hL hi hj ⊢
  rw [simulate]
  rw [simLoop_spec Sr Xc hn _ 0, except_map_ok]
  refine congrArg Except.ok ?_
  dsimp only [specState] at hL hi hj ⊢
  rw [specY]
  have hdiv : (i * Sr + j) / Sr = i :=
    div_eq_of_window Sr i _ (by omega) (by omega) (by omega)
  have hmod : (i * Sr + j) % Sr = i * Sr + j - i * Sr :=
    mod_eq_of_window Sr i _ (by omega) (by omega) (by omega)
  have hsq : i * Sr + j < Sr * Sr := by
    calc i * Sr + j < i * Sr + Sr := by omega
    _ = (i + 1) * Sr := by ring
    _ ≤ Sr * Sr := Nat.mul_le_mul_right Sr (by omega)
  rw [hdiv, hmod]
  rw [if_pos (show 1 ≤ Xc ∧ i * Sr + j < Sr * Sr ∧
    drainStart Sr Xc + (Sr - i) ≤ 0 + (3 * Sr + Xc) from
    ⟨hL, hsq, by simp only [drainStart]; omega⟩)]
  congr 1
  omega

/-- Witness for `simulate_drain_completeness` at N = 2, L = 2,
cell (1, 0). -/
theorem simulate_drain_completeness_witness :
    topConstruct 2 2 2 2 2 2 = .ok (initTopState 2 2) ∧
    1 ≤ (initTopState 2 2).streamLength ∧
    1 < (initTopState 2 2).arrayWidth ∧
    0 < (initTopState 2 2).arrayWidth ∧
    (simulate (initTopState 2 2) none).map
      (fun p => p.2.Y_mem.cells (1 * (initTopState 2 2).arrayWidth + 0)) =
      .ok (.partialSum "X" "W" 1 0 (initTopState 2 2).streamLength) := by
  refine ⟨topConstruct_valid 2 2 (by decide), by decide, by decide,
    by decide, ?_⟩
  exact simulate_drain_completeness 2 2 2 2 2 2 (initTopState 2 2)
    (topConstruct_valid 2 2 (by decide)) (by decide) 1 0 (by decide)
    (by decide)

/-- Counterexample to C1 as stated: with N = 1 and stream length L = 0
the construction is valid, yet after `simulate(null)` the output cell
(0, 0) is the zero constant, not a partial sum with count 0. -/
theorem simulate_drain_completeness_counterexample :
    topConstruct 1 0 0 1 1 1 = .ok (initTopState 1 0) ∧
    (simulate (initTopState 1 0) none).map
      (fun p => p.2.Y_mem.cells (0 * 1 + 0)) = .ok (.constInt 0) ∧
    Value.constInt 0 ≠ .partialSum "X" "W" 0 0 0 :=
  ⟨topConstruct_valid 1 0 (by decide), by decide, by decide⟩

/-- C9: for every valid construction and every cycle
`c < drainStart = (2N - 1) + L`, every output-memory cell in snapshot
`c` is still the zero constant. -/
theorem outputMemory_zero_before_drain (Xr Xc Wr Wc Sr Sc : Nat)
    (s : OutputStationaryTopLevel)
    (hcons : topConstruct Xr Xc Wr Wc Sr Sc = .ok s) (c k : Nat)
    (hc : c < drainStart s.arrayWidth s.streamLength) :
    (simulate s none).map
      (fun p => (p.1.getD c s).Y_mem.cells k) = .ok (.constInt 0) := by
  obtain ⟨-, -, -, -, hn, rfl⟩ :=
    topConstruct_ok_inv Xr Xc Wr Wc Sr Sc s hcons
  rw [← specState_zero Sr Xc] at hc ⊢
  rw [simulate, simLoop_spec Sr Xc hn _ 0, except_map_ok]
  refine congrArg Except.ok ?_
  dsimp only [specState] at hc ⊢
  rw [getD_range_map, if_pos (show c < 3 * Sr + Xc from by
    simp only [drainStart] at hc
    omega)]
  dsimp only [specState]
  rw [specY, if_neg (show ¬(1 ≤ Xc ∧ k < Sr * Sr ∧
    drainStart Sr Xc + (Sr - k / Sr) ≤ 0 + c) from fun hcc => by omega)]

/-- Witness for `outputMemory_zero_before_drain` at N = 2, L = 2,
snapshot 4, cell 3. -/
theorem outputMemory_zero_before_drain_witness :
    topConstruct 2 2 2 2 2 2 = .ok (initTopState 2 2) ∧
    4 < drainStart (initTopState 2 2).arrayWidth
      (initTopState 2 2).streamLength ∧
    (simulate (initTopState 2 2) none).map
      (fun p => (p.1.getD 4 (initTopState 2 2)).Y_mem.cells 3) =
      .ok (.constInt 0) := by
  refine ⟨topConstruct_valid 2 2 (by decide), by decide, ?_⟩
  exact outputMemory_zero_before_drain 2 2 2 2 2 2 (initTopState 2 2)
    (topConstruct_valid 2 2 (by decide)) 4 3 (by decide)

lemma except_bind_eq_ok {ε α β : Type} {e : Except ε α}
    {f : α → Except ε β} {b : β} :
    Except.bind e f = .ok b ↔ ∃ a, e = .ok a ∧ f a = .ok b := by
  cases e <;> simp [Except.bind]

lemma except_map_eq_ok {ε α β : Type} {g : α → β} {e : Except ε α}
    {b : β} : Except.map g e = .ok b ↔ ∃ a, e = .ok a ∧ g a = b := by
  cases e <;> simp [Except.map]

/-- C10: a successful top-level update never changes the X or W memory,
and leaves the Y memory unchanged whenever the write-enable signal of
the cycle is deasserted: the orchestrator only ever writes to the
output memory. -/
theorem topUpdate_frame (s s' : OutputStationaryTopLevel)
    (h : topUpdate s = .ok s') :
    s'.X_mem = s.X_mem ∧ s'.W_mem = s.W_mem ∧
    ((produceControlSignals s.controller).Y_memWriteEnable = false →
      s'.Y_mem = s.Y_mem) := by
  simp only [topUpdate, except_bind_eq_ok, except_map_eq_ok] at h
  obtain ⟨Xin, hX, Win, hW, Xdel, hXdel, Xd, hXd, Wdel, hWdel, Wd, hWd,
    Ym, hY, arr, hA, hrec⟩ := h
  subst hrec
  refine ⟨rfl, rfl, fun hw => ?_⟩
  rw [hw] at hY
  simp only [Bool.false_eq_true, if_false] at hY
  exact (Except.ok.inj hY).symm

lemma except_ok_of_isOk {ε α : Type} (e : Except ε α) (d : α)
    (h : e.isOk = true) : e = .ok (exceptGetD e d) := by
  cases e with
  | ok a => rfl
  | error _ => exact Bool.noConfusion h

/-- Witness for `topUpdate_frame` at the freshly constructed 2×2
design. -/
theorem topUpdate_frame_witness :
    topUpdate (initTopState 2 2) =
      .ok (exceptGetD (topUpdate (initTopState 2 2)) (initTopState 2 2)) ∧
    (exceptGetD (topUpdate (initTopState 2 2))
      (initTopState 2 2)).X_mem = (initTopState 2 2).X_mem := by
  have h := except_ok_of_isOk (topUpdate (initTopState 2 2))
    (initTopState 2 2) (by rfl)
  exact ⟨h, (topUpdate_frame _ _ h).1⟩

/-- Counterexample to C8 as stated: in the concrete N = 2, L = 2 run,
the write window is `5 ≤ c < 7`, so at snapshot 7 the control signals
show `Y_memWriteEnable = false` (the claim asserts it is true there). -/
theorem concrete_scenario_counterexample :
    topConstruct 2 2 2 2 2 2 = .ok (initTopState 2 2) ∧
    (simulate (initTopState 2 2) none).map (fun p =>
      (produceControlSignals
        (p.1.getD 7 (initTopState 2 2)).controller).Y_memWriteEnable) =
      .ok false :=
  ⟨topConstruct_valid 2 2 (by decide), by decide⟩

/-- C8 (amended): in the concrete N = 2, L = 2 run, `simulate(null)`
produces exactly 8 snapshots; snapshot 0 shows every PE register and
every delay register equal to the zero constant, with
`X_memReadEnable` true at address 0; `Y_memWriteEnable` is true at
snapshots 5 and 6 (the write window `drainStart = 5 ≤ c < 7`) and false
again at snapshot 7, by which point all four output-memory cells hold
partial sums with count 2, one for each (i, j) pair. -/
theorem concrete_scenario_amended :
    topConstruct 2 2 2 2 2 2 = .ok (initTopState 2 2) ∧
    (simulate (initTopState 2 2) none).map (fun p => p.1.length) =
      .ok 8 ∧
    (simulate (initTopState 2 2) none).map (fun p =>
      ((p.1.getD 0 (initTopState 2 2)).systolicArray.array 0 0,
       (p.1.getD 0 (initTopState 2 2)).systolicArray.array 0 1,
       (p.1.getD 0 (initTopState 2 2)).systolicArray.array 1 0,
       (p.1.getD 0 (initTopState 2 2)).systolicArray.array 1 1,
       (p.1.getD 0 (initTopState 2 2)).X_delay.registers 0 0,
       (p.1.getD 0 (initTopState 2 2)).W_delay.registers 0 0)) =
      .ok (initPE, initPE, initPE, initPE, .constInt 0, .constInt 0) ∧
    (simulate (initTopState 2 2) none).map (fun p =>
      (produceControlSignals
        (p.1.getD 0 (initTopState 2 2)).controller).X_memReadEnable) =
      .ok true ∧
    (simulate (initTopState 2 2) none).map (fun p =>
      (produceControlSignals
        (p.1.getD 0 (initTopState 2 2)).controller).X_memReadAddress) =
      .ok 0 ∧
    (simulate (initTopState 2 2) none).map (fun p =>
      (produceControlSignals
        (p.1.getD 5 (initTopState 2 2)).controller).Y_memWriteEnable) =
      .ok true ∧
    (simulate (initTopState 2 2) none).map (fun p =>
      (produceControlSignals
        (p.1.getD 6 (initTopState 2 2)).controller).Y_memWriteEnable) =
      .ok true ∧
    (simulate (initTopState 2 2) none).map (fun p =>
      (produceControlSignals
        (p.1.getD 7 (initTopState 2 2)).controller).Y_memWriteEnable) =
      .ok false ∧
    (simulate (initTopState 2 2) none).map (fun p =>
      ((p.1.getD 7 (initTopState 2 2)).Y_mem.cells 0,
       (p.1.getD 7 (initTopState 2 2)).Y_mem.cells 1,
       (p.1.getD 7 (initTopState 2 2)).Y_mem.cells 2,
       (p.1.getD 7 (initTopState 2 2)).Y_mem.cells 3)) =
      .ok (.partialSum "X" "W" 0 0 2, .partialSum "X" "W" 0 1 2,
        .partialSum "X" "W" 1 0 2, .partialSum "X" "W" 1 1 2) :=
  ⟨topConstruct_valid 2 2 (by decide), by decide, by decide, by decide,
    by decide, by decide, by decide, by decide, by decide⟩
